import Mathlib

/-!
Verification development for dnscache-go: a shallow embedding of the cache
store (cache.go), the lookup path (lookup.go as embedded in the repository
docs), the dialer (dial.go) and, where the current implementation files are
absent from the source tree (only their tests and the store interface
remain), models written from the specification.  Time is modelled as `Nat`
milliseconds; `time.Duration` values are nonnegative in every scenario the
claims exercise.  Go's `[]string`, which distinguishes `nil` from an empty
slice, is modelled as `Option (List String)`.
-/

namespace DnsCacheGo

/-- Model of Go errors as they matter to this library: the caller-context
errors (`context.Canceled`, `context.DeadlineExceeded`), `net.OpError`
shaped errors, and plain resolution failures. -/
inductive GoErr where
  | canceled : GoErr
  | deadlineExceeded : GoErr
  | opErr (op : String) (net : String) (msg : String) : GoErr
  | failure (msg : String) : GoErr
deriving DecidableEq

/-- An error is a propagation of the caller's own cancellation or deadline. -/
def GoErr.isCtxErr : GoErr → Bool
  | .canceled => true
  | .deadlineExceeded => true
  | _ => false

/-- A Go `[]string`: `none` models a nil slice. -/
abbrev GoStrings := Option (List String)

instance {ε α : Type} [DecidableEq ε] [DecidableEq α] : DecidableEq (Except ε α) :=
  fun x y =>
    match x, y with
    | .ok a, .ok b =>
      if h : a = b then .isTrue (by rw [h]) else .isFalse (by intro hh; cases hh; exact h rfl)
    | .error a, .error b =>
      if h : a = b then .isTrue (by rw [h]) else .isFalse (by intro hh; cases hh; exact h rfl)
    | .ok _, .error _ => .isFalse (by intro hh; cases hh)
    | .error _, .ok _ => .isFalse (by intro hh; cases hh)

/-- cache.go `cacheItem`: resolved values, cached failure, absolute expiry,
and the mark-sweep access flag. -/
structure CacheItem where
  ips : GoStrings
  err : Option GoErr
  expireAt : Nat
  used : Bool
deriving DecidableEq

/-- cache.go `memoryCache.store`: a key→item table.  Go's map has unique
keys; the association-list model coincides with it on key-unique lists, and
the operations below treat every entry of a key uniformly. -/
abbrev Store := List (String × CacheItem)

/-- Lookup of the item stored under a key (the `c.store[key]` read). -/
def storeFind (key : String) : Store → Option CacheItem
  | [] => none
  | p :: s => if p.1 = key then some p.2 else storeFind key s

/-- Rewrite the item stored under a key in place (used by the `used`-flag
mark and by map assignment on a present key). -/
def mapVal (key : String) (g : CacheItem → CacheItem) (s : Store) : Store :=
  s.map (fun p => if p.1 = key then (p.1, g p.2) else p)

/-- cache.go `Get`: returns `(ips, err, expireAt)` — nil/nil/zero-time when
the key is absent — and marks the entry used. -/
def storeGet (key : String) (s : Store) :
    (GoStrings × Option GoErr × Nat) × Store :=
  match storeFind key s with
  | none => ((none, none, 0), s)
  | some it =>
      ((it.ips, it.err, it.expireAt), mapVal key (fun q => { q with used := true }) s)

/-- cache.go `Set`: unconditional upsert; `expireAt = now + ttl`; `used = true`. -/
def storeSet (key : String) (ips : GoStrings) (e : Option GoErr)
    (ttl now : Nat) (s : Store) : Store :=
  if (storeFind key s).isSome then
    mapVal key (fun _ => ⟨ips, e, now + ttl, true⟩) s
  else
    (key, ⟨ips, e, now + ttl, true⟩) :: s

/-- cache.go `Prune`: delete every entry whose `used` flag is false, reset
the flag of every survivor, and return the number of deleted entries. -/
def storePrune (s : Store) : Store × Nat :=
  ((s.filter (fun p => p.2.used)).map (fun p => (p.1, { p.2 with used := false })),
   (s.filter (fun p => !p.2.used)).length)

/-- The data view of a key's entry: values, failure and expiry, without the
internal mark-sweep flag. -/
def storeView (key : String) (s : Store) : Option (GoStrings × Option GoErr × Nat) :=
  (storeFind key s).map (fun it => (it.ips, it.err, it.expireAt))

/-- One operation against the cache store, for stating the mark-sweep
invariant over operation sequences. -/
inductive CacheOp where
  | get (key : String)
  | set (key : String) (ips : GoStrings) (e : Option GoErr) (ttl : Nat) (now : Nat)
  | prune
deriving DecidableEq

/-- Execute one operation. -/
def stepOp : CacheOp → Store → Store
  | .get k, s => (storeGet k s).2
  | .set k ips e ttl now, s => storeSet k ips e ttl now s
  | .prune, s => (storePrune s).1

/-- Execute a sequence of operations, left to right. -/
def runOps : List CacheOp → Store → Store
  | [], s => s
  | op :: ops, s => runOps ops (stepOp op s)

/-- The operation addresses the given key (a `Get` or a `Set` on it). -/
def CacheOp.touches (k : String) : CacheOp → Bool
  | .get k' => decide (k' = k)
  | .set k' _ _ _ _ => decide (k' = k)
  | .prune => false

/-- Every entry of the store is unmarked — the state right after a sweep. -/
def allUnused (s : Store) : Prop := ∀ p ∈ s, p.2.used = false

instance (s : Store) : Decidable (allUnused s) := by
  unfold allUnused
  infer_instance

/-! Lookup path, embedded from the `lookup` and `lookupAndCache` functions of
the repository's lookup file.  The singleflight `Do` is modelled by executing
its function once (the sequential semantics of a single caller); the
asynchronous half-life refresh only spawns a detached task on the hit path and
does not alter the returned value or the store seen by this call, so it is not
represented.  Hook and trace invocations are observability plumbing and are
not returned.  The upstream `fetcher` outcome and the caller-context state at
the post-fetch check are parameters. -/

/-- The dynamic (`interface` typed) value broadcast by the singleflight
group: either a `[]string` (possibly nil) or the untyped nil an errored
function body leaves behind. -/
inductive SFValue where
  | strings (v : GoStrings)
  | nilInterface
deriving DecidableEq

/-- The outcome of `lookup`: a value, a failure, or the defensive
`unexpected type from singleflight` error. -/
inductive LookupResult where
  | ok (v : GoStrings)
  | failed (e : GoErr)
  | unexpectedType
deriving DecidableEq

/-- `lookupAndCache`: run the fetch; on failure return it without touching
the store; on success, if the caller's context is already dead return that
context error without caching, otherwise persist the results with the
positive TTL and return them. -/
def lookupAndCache (cacheTTL now : Nat) (key : String)
    (fetchResult : Except GoErr GoStrings) (ctxErr : Option GoErr)
    (s : Store) : Except GoErr GoStrings × Store :=
  match fetchResult with
  | .error e => (.error e, s)
  | .ok results =>
    match ctxErr with
    | some ce => (.error ce, s)
    | none => (.ok results, storeSet key results none cacheTTL now s)

/-- `lookup`: cache read, hit short-circuit, coalesced fetch with in-flight
double check, stale-fallback on failure, and the `[]string` type assertion
on the broadcast value. -/
def lookup (persistOnFailure : Bool) (cacheTTL now : Nat) (key : String)
    (fetchResult : Except GoErr GoStrings) (ctxErr : Option GoErr)
    (s : Store) : LookupResult × Store :=
  let g := storeGet key s
  let values := g.1.1
  let expireAt := g.1.2.2
  let s1 := g.2
  if values.isSome && decide (now < expireAt) then
    (.ok values, s1)
  else
    let fnRes : SFValue × Option GoErr × Store :=
      let g2 := storeGet key s1
      if g2.1.1.isSome && decide (now < g2.1.2.2) then
        (.strings g2.1.1, none, g2.2)
      else
        match lookupAndCache cacheTTL now key fetchResult ctxErr g2.2 with
        | (.ok r, s3) => (.strings r, none, s3)
        | (.error e, s3) => (.nilInterface, some e, s3)
    match fnRes with
    | (_, some e, s') =>
      if persistOnFailure then
        let g3 := storeGet key s'
        if g3.1.1.isSome then (.ok g3.1.1, g3.2) else (.failed e, g3.2)
      else (.failed e, s')
    | (v, none, s') =>
      match v with
      | .strings l => (.ok l, s')
      | .nilInterface => (.unexpectedType, s')

/-! Family-filtered lookup (`LookupIP`).  `net.ParseIP` is Go standard
library — an external collaborator — and is a parameter; an IP is its byte
sequence (`net.IP` is a byte slice).  `To4` and `To16` are the two standard
library accessors the filter relies on, modelled byte for byte. -/

/-- Go `net.IP.To4`: the 4-byte form of an address — the address itself when
4 bytes long, its tail when it is a 16-byte IPv4-mapped address
(`::ffff:a.b.c.d`), and nil otherwise. -/
def to4 (ip : List Nat) : Option (List Nat) :=
  if ip.length == 4 then some ip
  else if ip.length == 16 && (ip.take 10).all (· == 0)
       && ip.get? 10 == some 255 && ip.get? 11 == some 255 then
    some (ip.drop 12)
  else none

/-- Go `net.IP.To16`: the 16-byte form — widening a 4-byte address with the
IPv4-in-IPv6 prefix, the identity on 16 bytes, nil otherwise. -/
def to16 (ip : List Nat) : Option (List Nat) :=
  if ip.length == 4 then some ([0, 0, 0, 0, 0, 0, 0, 0, 0, 0, 255, 255] ++ ip)
  else if ip.length == 16 then some ip
  else none

/-- The filtering loop of `LookupIP` over the cached address strings: skip
what does not parse; under "ip4" keep addresses with a 4-byte form; under
"ip6" keep addresses without a 4-byte form but with a valid 16-byte form;
otherwise pass everything through, preserving order. -/
def lookupIPFilter (parse : String → Option (List Nat)) (network : String)
    (ipStrings : List String) : List (List Nat) :=
  ipStrings.filterMap (fun a =>
    match parse a with
    | none => none
    | some ip =>
      match network with
      | "ip4" => if (to4 ip).isSome then some ip else none
      | "ip6" => if (to4 ip).isNone && (to16 ip).isSome then some ip else none
      | _ => some ip)

/-- `LookupIP` in cache-enabled mode: resolve through the shared string
cache via `lookup`, then filter by address family. -/
def lookupIP (parse : String → Option (List Nat)) (network : String)
    (persistOnFailure : Bool) (cacheTTL now : Nat) (key : String)
    (fetchResult : Except GoErr GoStrings) (ctxErr : Option GoErr)
    (s : Store) : Except GoErr (List (List Nat)) × Store :=
  match lookup persistOnFailure cacheTTL now key fetchResult ctxErr s with
  | (.ok v, s') => (.ok (lookupIPFilter parse network (v.getD [])), s')
  | (.failed e, s') => (.error e, s')
  | (.unexpectedType, s') => (.error (.failure "unexpected type from singleflight"), s')

/-! Dialer, embedded from `DialContext` (dial.go).  `net.SplitHostPort`,
`net.JoinHostPort` and the underlying `net.Dialer` are standard library
externals and are parameters.  A live connection is modelled as a `Nat`
handle.  The outcome records, besides the result, how many host lookups ran
and which addresses were handed to the underlying dialer, in order. -/

structure DialOutcome where
  result : Except GoErr Nat
  lookupCalls : Nat
  attempts : List String
deriving DecidableEq

/-- The failover loop of `DialContext`: try each address in order, return
the first established connection; remember the last error; when the list is
exhausted return the last error, or — only reachable when no attempt was
made — the dial-shaped "no addresses found" error. -/
def dialLoop (dial : String → Except GoErr Nat) (network : String) :
    List String → Option GoErr → Except GoErr Nat × List String
  | [], lastErr =>
    (match lastErr with
     | some e => .error e
     | none => .error (.opErr "dial" network "no addresses found"), [])
  | a :: rest, _ =>
    match dial a with
    | .ok c => (.ok c, [a])
    | .error e =>
      let r := dialLoop dial network rest (some e)
      (r.1, a :: r.2)

/-- `DialContext`: pass through to the raw dialer when disabled; otherwise
split host and port (a parse failure returns immediately, before any
lookup), resolve the host, and run the sequential failover loop over the
resolved addresses joined with the port.  The source joins each address
inside the loop; joining the whole list first is the same sequence of
dialed targets. -/
def dialContext (disabled : Bool) (join : String → String → String)
    (dial : String → Except GoErr Nat) (network address : String)
    (split : Except GoErr (String × String))
    (lookupHost : Except GoErr GoStrings) : DialOutcome :=
  if disabled then
    { result := dial address, lookupCalls := 0, attempts := [address] }
  else
    match split with
    | .error e => { result := .error e, lookupCalls := 0, attempts := [] }
    | .ok hp =>
      match lookupHost with
      | .error e => { result := .error e, lookupCalls := 1, attempts := [] }
      | .ok ips =>
        let l := dialLoop dial network ((ips.getD []).map (fun ip => join ip hp.2)) none
        { result := l.1, lookupCalls := 1, attempts := l.2 }

/-! Definitions modelled from the spec.  The source tree carries two
generations of the library: cache.go and the test suite belong to the
current one (failure-carrying cache entries, change detection, dial
strategies, negative caching), while the lookup and dial files are an
earlier snapshot that does not even type-check against cache.go's
three-value `Get`.  The current implementations of change detection
(`ipListChanged`), the strategy layer (`DialStrategy`,
`applyDialStrategy`) and the negative-caching lookup pipeline are therefore
absent from the tree — only their tests, the store and the configuration
defaults remain — and are modelled here from the spec's words. -/

/-- Modelled from the spec: change detection (`ipListChanged` exists only in
its table-driven test).  Two address lists are considered different unless,
after independently sorting both, they have equal length and are
elementwise equal. -/
def ipListChanged (oldIPs newIPs : List String) : Bool :=
  if oldIPs.length != newIPs.length then true
  else decide (List.insertionSort (· ≤ ·) oldIPs ≠ List.insertionSort (· ≤ ·) newIPs)

/-- The configuration fields the lookup pipeline reads.  TTLs in
milliseconds. -/
structure SpecConfig where
  cacheTTL : Nat
  cacheFailTTL : Nat
  persistOnFailure : Bool
deriving DecidableEq

/-- `New`'s defaulting (from the resolver construction in the source): a
zero positive TTL becomes one minute, a zero negative TTL one second. -/
def newConfig (c : SpecConfig) : SpecConfig :=
  { c with
    cacheTTL := if c.cacheTTL = 0 then 60000 else c.cacheTTL,
    cacheFailTTL := if c.cacheFailTTL = 0 then 1000 else c.cacheFailTTL }

/-- What one coordinated lookup produced: the caller's result, the new
store, whether the upstream fetch ran, and the change-notification payload
(key and new values) when the hook fires. -/
structure SpecLookupOut where
  result : Except GoErr GoStrings
  store : Store
  fetched : Bool
  changeHook : Option (String × GoStrings)
deriving DecidableEq

/-- The entry for a key is present, unexpired and usable without a fetch. -/
def freshAt (key : String) (now : Nat) (s : Store) : Bool :=
  match storeFind key s with
  | none => false
  | some it => (it.ips.isSome || it.err.isSome) && decide (now < it.expireAt)

/-- The values a key held before this call (nil when absent). -/
def prevValues (key : String) (s : Store) : GoStrings :=
  match storeFind key s with
  | none => none
  | some it => it.ips

/-- Modelled from the spec: the current lookup pipeline (spec §4.3), whose
implementation file is missing from the tree.  Read the store; a fresh
entry answers without a fetch — its cached failure is returned (negative
hit) unless stale-fallback is enabled and stale values exist.  Otherwise
fetch once (the in-flight double check only matters between concurrent
callers and is invisible sequentially).  On success, persist with the
positive TTL and report a change exactly when `ipListChanged` says so.  On
a failure propagating the caller's own cancellation or deadline, cache
nothing.  On any other failure, cache a negative entry with the negative
TTL — retaining the previous values, the composition rule the spec
recommends — and fall back to stale values when the policy allows. -/
def lookupSpec (cfg : SpecConfig) (fetchResult : Except GoErr GoStrings)
    (now : Nat) (key : String) (s : Store) : SpecLookupOut :=
  let g := storeGet key s
  let values := g.1.1
  let failure := g.1.2.1
  let expireAt := g.1.2.2
  let s1 := g.2
  if (values.isSome || failure.isSome) && decide (now < expireAt) then
    match failure with
    | none => ⟨.ok values, s1, false, none⟩
    | some e =>
      if cfg.persistOnFailure && values.isSome then ⟨.ok values, s1, false, none⟩
      else ⟨.error e, s1, false, none⟩
  else
    match fetchResult with
    | .ok newVals =>
      let changed := ipListChanged (values.getD []) (newVals.getD [])
      ⟨.ok newVals, storeSet key newVals none cfg.cacheTTL now s1, true,
        if changed then some (key, newVals) else none⟩
    | .error e =>
      if e.isCtxErr then ⟨.error e, s1, true, none⟩
      else
        let s2 := storeSet key values (some e) cfg.cacheFailTTL now s1
        if cfg.persistOnFailure && values.isSome then ⟨.ok values, s2, true, none⟩
        else ⟨.error e, s2, true, none⟩

/-- Modelled from the spec: the dial reordering strategies.  The test suite
pins the unset (zero) configuration value to Random. -/
inductive DialStrategy where
  | random : DialStrategy
  | sequential : DialStrategy
  | roundRobin : DialStrategy
deriving DecidableEq

/-- The strategy an unset configuration gets: Random. -/
def defaultDialStrategy : DialStrategy := .random

/-- A Fisher-Yates style shuffle driven by a stream of random draws, one
draw per remaining position: the draw selects which element comes next.
The stream models one call's fresh output of the random source. -/
def fyShuffle : List Nat → List String → List String
  | _, [] => []
  | [], l => l
  | d :: ds, a :: l =>
    let j := d % (a :: l).length
    (a :: l).get ⟨j, Nat.mod_lt _ (Nat.succ_pos _)⟩ ::
      fyShuffle ds ((a :: l).eraseIdx j)

/-- Modelled from the spec: `applyDialStrategy` (exists only in its tests).
A list of at most one element is returned unchanged under any strategy.
Sequential is the identity; round-robin rotates to the offset given by the
per-resolver counter modulo the candidate count and advances the counter by
one; Random shuffles with this call's fresh draws.  Returns the reordered
list and the new counter. -/
def applyDialStrategy (strat : DialStrategy) (draws : List Nat)
    (rrCounter : Nat) (ips : List String) : List String × Nat :=
  if ips.length ≤ 1 then (ips, rrCounter)
  else
    match strat with
    | .sequential => (ips, rrCounter)
    | .roundRobin => (ips.rotate (rrCounter % ips.length), rrCounter + 1)
    | .random => (fyShuffle draws ips, rrCounter)

/-- Modelled from the spec: `DialContext` with the strategy layer — the
current dialer reorders the resolved list with the configured strategy
before the sequential failover loop.  Returns the outcome and the new
round-robin counter. -/
def dialContextStrategy (strat : DialStrategy) (draws : List Nat)
    (rrCounter : Nat) (join : String → String → String)
    (dial : String → Except GoErr Nat) (network : String)
    (split : Except GoErr (String × String))
    (lookupHost : Except GoErr GoStrings) : DialOutcome × Nat :=
  match split with
  | .error e => ({ result := .error e, lookupCalls := 0, attempts := [] }, rrCounter)
  | .ok hp =>
    match lookupHost with
    | .error e => ({ result := .error e, lookupCalls := 1, attempts := [] }, rrCounter)
    | .ok ips =>
      let ordered := applyDialStrategy strat draws rrCounter (ips.getD [])
      let l := dialLoop dial network (ordered.1.map (fun ip => join ip hp.2)) none
      ({ result := l.1, lookupCalls := 1, attempts := l.2 }, ordered.2)

/-! Store lemmas. -/

theorem mapVal_cons (k : String) (g : CacheItem → CacheItem) (p : String × CacheItem)
    (t : Store) :
    mapVal k g (p :: t) = (if p.1 = k then (p.1, g p.2) else p) :: mapVal k g t := rfl

theorem storeFind_mapVal_self (k : String) (g : CacheItem → CacheItem) (s : Store) :
    storeFind k (mapVal k g s) = (storeFind k s).map g := by
  induction s with
  | nil => rfl
  | cons p t ih =>
    rw [mapVal_cons]
    by_cases h : p.1 = k
    · simp [storeFind, h]
    · simp [storeFind, h, ih]

theorem storeFind_mapVal_ne (k k' : String) (hk : k' ≠ k)
    (g : CacheItem → CacheItem) (s : Store) :
    storeFind k (mapVal k' g s) = storeFind k s := by
  induction s with
  | nil => rfl
  | cons p t ih =>
    rw [mapVal_cons]
    have hk2 : k ≠ k' := fun hh => hk hh.symm
    by_cases h1 : p.1 = k'
    · have h2 : ¬p.1 = k := by rw [h1]; exact hk
      simp [storeFind, h1, h2, ih, hk]
    · by_cases h2 : p.1 = k <;> simp [storeFind, h1, h2, ih, hk, hk2]

theorem mapVal_keys (k : String) (g : CacheItem → CacheItem) (s : Store) :
    (mapVal k g s).map Prod.fst = s.map Prod.fst := by
  induction s with
  | nil => rfl
  | cons p t ih =>
    rw [mapVal_cons]
    by_cases h : p.1 = k <;> simp [h, ih]

theorem storeFind_eq_none_iff (k : String) (s : Store) :
    storeFind k s = none ↔ k ∉ s.map Prod.fst := by
  induction s with
  | nil => simp [storeFind]
  | cons p t ih =>
    by_cases h : p.1 = k
    · simp [storeFind, h]
    · simp only [storeFind, h, if_false, List.map_cons, List.mem_cons, ih]
      constructor
      · intro hn hor
        rcases hor with hor | hor
        · exact h hor.symm
        · exact hn hor
      · intro hn hm
        exact hn (Or.inr hm)

theorem storeFind_mem (k : String) (s : Store) (it : CacheItem)
    (h : storeFind k s = some it) : (k, it) ∈ s := by
  induction s with
  | nil => simp [storeFind] at h
  | cons p t ih =>
    by_cases hp : p.1 = k
    · simp only [storeFind, hp, if_true, Option.some.injEq] at h
      have hpk : p = (k, it) := by
        cases p with
        | mk a b => simp_all
      rw [← hpk]
      exact List.mem_cons_self _ _
    · simp only [storeFind, hp, if_false] at h
      exact List.mem_cons_of_mem _ (ih h)

theorem storeGet_of_none (k : String) (s : Store) (h : storeFind k s = none) :
    storeGet k s = ((none, none, 0), s) := by
  unfold storeGet
  rw [h]

theorem storeGet_of_some (k : String) (s : Store) (it : CacheItem)
    (h : storeFind k s = some it) :
    storeGet k s = ((it.ips, it.err, it.expireAt),
      mapVal k (fun q => { q with used := true }) s) := by
  unfold storeGet
  rw [h]

theorem storeSet_of_present (k : String) (ips : GoStrings) (e : Option GoErr)
    (ttl now : Nat) (s : Store) (h : (storeFind k s).isSome) :
    storeSet k ips e ttl now s = mapVal k (fun _ => ⟨ips, e, now + ttl, true⟩) s := by
  unfold storeSet
  rw [if_pos h]

theorem storeSet_of_absent (k : String) (ips : GoStrings) (e : Option GoErr)
    (ttl now : Nat) (s : Store) (h : ¬(storeFind k s).isSome) :
    storeSet k ips e ttl now s = (k, ⟨ips, e, now + ttl, true⟩) :: s := by
  unfold storeSet
  rw [if_neg h]

theorem storeView_storeGet (k k' : String) (s : Store) :
    storeView k' ((storeGet k s).2) = storeView k' s := by
  cases hf : storeFind k s with
  | none => rw [storeGet_of_none k s hf]
  | some it =>
    rw [storeGet_of_some k s it hf]
    by_cases hk : k' = k
    · subst k'
      unfold storeView
      rw [storeFind_mapVal_self, hf]
      rfl
    · unfold storeView
      rw [storeFind_mapVal_ne k' k (fun hh => hk hh.symm)]

/-! Mark-sweep machinery: the `used` flag after a block of operations. -/

/-- Any entry the key holds is marked used. -/
def Good (k : String) (s : Store) : Prop :=
  ∀ it, storeFind k s = some it → it.used = true

theorem good_of_mapVal_mark (k : String) (s : Store) :
    Good k (mapVal k (fun q => { q with used := true }) s) := by
  intro it h
  rw [storeFind_mapVal_self] at h
  cases hf : storeFind k s with
  | none => rw [hf] at h; cases h
  | some it0 => rw [hf] at h; cases h; rfl

theorem good_of_const (k : String) (ips : GoStrings) (e : Option GoErr)
    (ex : Nat) (s : Store) :
    Good k (mapVal k (fun _ => ⟨ips, e, ex, true⟩) s) := by
  intro it h
  rw [storeFind_mapVal_self] at h
  cases hf : storeFind k s with
  | none => rw [hf] at h; cases h
  | some it0 => rw [hf] at h; cases h; rfl

theorem good_step (k : String) (op : CacheOp) (s : Store)
    (hop : op ≠ .prune) (h : Good k s) : Good k (stepOp op s) := by
  cases op with
  | get k' =>
    show Good k (storeGet k' s).2
    cases hf : storeFind k' s with
    | none => rw [storeGet_of_none k' s hf]; exact h
    | some it =>
      rw [storeGet_of_some k' s it hf]
      by_cases hk : k' = k
      · subst k'; exact good_of_mapVal_mark k s
      · intro it' h'
        rw [storeFind_mapVal_ne k k' hk] at h'
        exact h it' h'
  | set k' ips e ttl now =>
    show Good k (storeSet k' ips e ttl now s)
    by_cases hp : (storeFind k' s).isSome
    · rw [storeSet_of_present k' ips e ttl now s hp]
      by_cases hk : k' = k
      · subst k'; exact good_of_const k ips e (now + ttl) s
      · intro it' h'
        rw [storeFind_mapVal_ne k k' hk] at h'
        exact h it' h'
    · rw [storeSet_of_absent k' ips e ttl now s hp]
      intro it' h'
      by_cases hk : k' = k
      · simp only [storeFind, hk, if_true, Option.some.injEq] at h'
        cases h'; rfl
      · simp only [storeFind, hk, if_false] at h'
        exact h it' h'
  | prune => exact absurd rfl hop

theorem good_touch (k : String) (op : CacheOp) (s : Store)
    (ht : op.touches k = true) : Good k (stepOp op s) := by
  cases op with
  | get k' =>
    have hk : k' = k := by simpa [CacheOp.touches] using ht
    subst k'
    show Good k (storeGet k s).2
    cases hf : storeFind k s with
    | none =>
      rw [storeGet_of_none k s hf]
      intro it h'
      rw [hf] at h'
      cases h'
    | some it =>
      rw [storeGet_of_some k s it hf]
      exact good_of_mapVal_mark k s
  | set k' ips e ttl now =>
    have hk : k' = k := by simpa [CacheOp.touches] using ht
    subst k'
    show Good k (storeSet k ips e ttl now s)
    by_cases hp : (storeFind k s).isSome
    · rw [storeSet_of_present k ips e ttl now s hp]
      exact good_of_const k ips e (now + ttl) s
    · rw [storeSet_of_absent k ips e ttl now s hp]
      intro it' h'
      simp only [storeFind, if_true, Option.some.injEq] at h'
      cases h'
      rfl
  | prune => simp [CacheOp.touches] at ht

theorem runOps_append (l1 l2 : List CacheOp) (s : Store) :
    runOps (l1 ++ l2) s = runOps l2 (runOps l1 s) := by
  induction l1 generalizing s with
  | nil => rfl
  | cons op t ih => simp [runOps, ih]

theorem good_run (k : String) (ops : List CacheOp) (s : Store)
    (hnp : ∀ op ∈ ops, op ≠ CacheOp.prune) (h : Good k s) :
    Good k (runOps ops s) := by
  induction ops generalizing s with
  | nil => exact h
  | cons op t ih =>
    exact ih _ (fun o ho => hnp o (List.mem_cons_of_mem _ ho))
      (good_step k op s (hnp op (List.mem_cons_self _ _)) h)

theorem find_step_untouched (k : String) (op : CacheOp) (s : Store)
    (ht : op.touches k = false) (hop : op ≠ .prune) :
    storeFind k (stepOp op s) = storeFind k s := by
  cases op with
  | get k' =>
    have hk : k' ≠ k := by simpa [CacheOp.touches] using ht
    show storeFind k (storeGet k' s).2 = storeFind k s
    cases hf : storeFind k' s with
    | none => rw [storeGet_of_none k' s hf]
    | some it =>
      rw [storeGet_of_some k' s it hf]
      dsimp only
      exact storeFind_mapVal_ne k k' hk _ s
  | set k' ips e ttl now =>
    have hk : k' ≠ k := by simpa [CacheOp.touches] using ht
    show storeFind k (storeSet k' ips e ttl now s) = storeFind k s
    by_cases hp : (storeFind k' s).isSome
    · rw [storeSet_of_present k' ips e ttl now s hp]
      exact storeFind_mapVal_ne k k' hk _ s
    · rw [storeSet_of_absent k' ips e ttl now s hp]
      simp [storeFind, hk]
  | prune => exact absurd rfl hop

theorem find_run_untouched (k : String) (ops : List CacheOp) (s : Store)
    (ht : ∀ op ∈ ops, CacheOp.touches k op = false)
    (hnp : ∀ op ∈ ops, op ≠ CacheOp.prune) :
    storeFind k (runOps ops s) = storeFind k s := by
  induction ops generalizing s with
  | nil => rfl
  | cons op t ih =>
    rw [show runOps (op :: t) s = runOps t (stepOp op s) from rfl,
      ih _ (fun o ho => ht o (List.mem_cons_of_mem _ ho))
        (fun o ho => hnp o (List.mem_cons_of_mem _ ho)),
      find_step_untouched k op s (ht op (List.mem_cons_self _ _))
        (hnp op (List.mem_cons_self _ _))]

/-! Prune lemmas. -/

theorem prune_find_used (k : String) (s : Store) (it : CacheItem)
    (hf : storeFind k s = some it) (hu : it.used = true) :
    storeFind k (storePrune s).1 = some { it with used := false } := by
  induction s with
  | nil => simp [storeFind] at hf
  | cons p t ih =>
    by_cases hp : p.1 = k
    · simp only [storeFind, hp, if_true, Option.some.injEq] at hf
      have hpu : p.2.used = true := by rw [hf]; exact hu
      simp [storePrune, List.filter_cons, hpu, storeFind, hp, hf, hu]
    · simp only [storeFind, hp, if_false] at hf
      by_cases hpu : p.2.used
      · simpa [storePrune, List.filter_cons, hpu, storeFind, hp] using ih hf
      · simpa [storePrune, List.filter_cons, hpu] using ih hf

theorem prune_keys_sublist (s : Store) :
    ((storePrune s).1.map Prod.fst).Sublist (s.map Prod.fst) := by
  have h1 : (storePrune s).1.map Prod.fst
      = (s.filter (fun p => p.2.used)).map Prod.fst := by
    simp [storePrune]
  rw [h1]
  exact List.Sublist.map _ (List.filter_sublist s)

theorem prune_find_unused (k : String) (s : Store) (it : CacheItem)
    (hnd : (s.map Prod.fst).Nodup) (hf : storeFind k s = some it)
    (hu : it.used = false) :
    storeFind k (storePrune s).1 = none := by
  induction s with
  | nil => simp [storeFind] at hf
  | cons p t ih =>
    have hnd' : (t.map Prod.fst).Nodup := (List.nodup_cons.mp hnd).2
    have hnm : p.1 ∉ t.map Prod.fst := (List.nodup_cons.mp hnd).1
    by_cases hp : p.1 = k
    · simp only [storeFind, hp, if_true, Option.some.injEq] at hf
      have hpu : p.2.used = false := by rw [hf]; exact hu
      have hk : k ∉ t.map Prod.fst := hp ▸ hnm
      have hkp : k ∉ (storePrune t).1.map Prod.fst :=
        fun hm => hk ((prune_keys_sublist t).mem hm)
      have := (storeFind_eq_none_iff k (storePrune t).1).mpr hkp
      simpa [storePrune, List.filter_cons, hpu] using this
    · simp only [storeFind, hp, if_false] at hf
      by_cases hpu : p.2.used
      · simpa [storePrune, List.filter_cons, hpu, storeFind, hp] using ih hnd' hf
      · simpa [storePrune, List.filter_cons, hpu] using ih hnd' hf

theorem prune_allUnused (s : Store) : allUnused (storePrune s).1 := by
  intro p hp
  simp only [storePrune, List.mem_map] at hp
  obtain ⟨q, _, rfl⟩ := hp
  rfl

theorem filter_length_split {α : Type} (p : α → Bool) (l : List α) :
    (l.filter (fun x => !p x)).length + (l.filter p).length = l.length := by
  induction l with
  | nil => rfl
  | cons a t ih =>
    by_cases h : p a <;> simp [List.filter_cons, h, ← ih] <;> omega

theorem prune_count (s : Store) :
    (storePrune s).2 + (storePrune s).1.length = s.length := by
  simp only [storePrune, List.length_map]
  exact filter_length_split _ s

/-! Key uniqueness is preserved by every operation. -/

theorem keys_step_nodup (op : CacheOp) (s : Store)
    (h : (s.map Prod.fst).Nodup) : ((stepOp op s).map Prod.fst).Nodup := by
  cases op with
  | get k' =>
    show ((storeGet k' s).2.map Prod.fst).Nodup
    cases hf : storeFind k' s with
    | none => rw [storeGet_of_none k' s hf]; exact h
    | some it =>
      rw [storeGet_of_some k' s it hf]
      dsimp only
      rw [mapVal_keys]
      exact h
  | set k' ips e ttl now =>
    show ((storeSet k' ips e ttl now s).map Prod.fst).Nodup
    by_cases hp : (storeFind k' s).isSome
    · rw [storeSet_of_present k' ips e ttl now s hp, mapVal_keys]
      exact h
    · rw [storeSet_of_absent k' ips e ttl now s hp]
      have hn : storeFind k' s = none := by
        cases hx : storeFind k' s with
        | none => rfl
        | some it => rw [hx] at hp; exact absurd rfl hp
      have hnot := (storeFind_eq_none_iff k' s).mp hn
      rw [show (((k', (⟨ips, e, now + ttl, true⟩ : CacheItem)) :: s).map Prod.fst)
          = k' :: s.map Prod.fst from rfl]
      exact List.nodup_cons.mpr ⟨hnot, h⟩
  | prune =>
    show (((storePrune s).1).map Prod.fst).Nodup
    exact (prune_keys_sublist s).nodup h

theorem keys_run_nodup (ops : List CacheOp) (s : Store)
    (h : (s.map Prod.fst).Nodup) : ((runOps ops s).map Prod.fst).Nodup := by
  induction ops generalizing s with
  | nil => exact h
  | cons op t ih => exact ih _ (keys_step_nodup op s h)

/-- C5: start from a post-sweep state (every `used` flag clear, keys
unique) and run any block of Get/Set operations.  The next Prune removes a
key's entry exactly when the entry is present and no Get or Set addressed
that key in the block — so an entry created or accessed in a sweep cycle is
never removed by that cycle's sweep; the sweep clears the `used` flag of
every survivor; and its return value counts the removed entries (removed
plus surviving equals total). -/
theorem prune_mark_sweep_c5 (s : Store) (ops : List CacheOp) (k : String)
    (hnd : (s.map Prod.fst).Nodup) (hall : allUnused s)
    (hnp : ∀ op ∈ ops, op ≠ CacheOp.prune) :
    (((storeFind k (runOps ops s)).isSome
        ∧ storeFind k (storePrune (runOps ops s)).1 = none) ↔
      ((storeFind k (runOps ops s)).isSome
        ∧ ∀ op ∈ ops, CacheOp.touches k op = false))
    ∧ allUnused (storePrune (runOps ops s)).1
    ∧ (storePrune (runOps ops s)).2 + (storePrune (runOps ops s)).1.length
        = (runOps ops s).length := by
  refine ⟨⟨?_, ?_⟩, prune_allUnused _, prune_count _⟩
  · rintro ⟨hpres, hrem⟩
    refine ⟨hpres, ?_⟩
    by_contra hex
    obtain ⟨op, hop, htt⟩ : ∃ op ∈ ops, CacheOp.touches k op = true := by
      push_neg at hex
      obtain ⟨op, hop, hne⟩ := hex
      exact ⟨op, hop, by revert hne; cases CacheOp.touches k op <;> simp⟩
    obtain ⟨l1, l2, rfl⟩ := List.append_of_mem hop
    have hg : Good k (runOps (l1 ++ op :: l2) s) := by
      rw [runOps_append]
      have hstep : runOps (op :: l2) (runOps l1 s)
          = runOps l2 (stepOp op (runOps l1 s)) := rfl
      rw [hstep]
      exact good_run k l2 _
        (fun o ho => hnp o (by simp [List.mem_append, ho]))
        (good_touch k op _ htt)
    obtain ⟨it, hit⟩ := Option.isSome_iff_exists.mp hpres
    have hused := hg it hit
    have hsurv := prune_find_used k _ it hit hused
    rw [hrem] at hsurv
    cases hsurv
  · rintro ⟨hpres, hunt⟩
    refine ⟨hpres, ?_⟩
    have hfind := find_run_untouched k ops s hunt hnp
    obtain ⟨it, hit⟩ := Option.isSome_iff_exists.mp hpres
    have hit0 : storeFind k s = some it := by rw [← hfind]; exact hit
    have hmem := storeFind_mem k s it hit0
    have hu : it.used = false := hall _ hmem
    exact prune_find_unused k _ it (keys_run_nodup ops s hnd) hit hu

/-- Witness for C5 at a concrete store and operation block. -/
theorem prune_mark_sweep_c5_witness :
    (([("a", CacheItem.mk (some ["1.1.1.1"]) none 10 false)].map Prod.fst).Nodup
      ∧ allUnused [("a", CacheItem.mk (some ["1.1.1.1"]) none 10 false)]
      ∧ (∀ op ∈ [CacheOp.get "b"], op ≠ CacheOp.prune))
    ∧ ((((storeFind "a" (runOps [CacheOp.get "b"]
            [("a", CacheItem.mk (some ["1.1.1.1"]) none 10 false)])).isSome
        ∧ storeFind "a" (storePrune (runOps [CacheOp.get "b"]
            [("a", CacheItem.mk (some ["1.1.1.1"]) none 10 false)])).1 = none) ↔
      ((storeFind "a" (runOps [CacheOp.get "b"]
            [("a", CacheItem.mk (some ["1.1.1.1"]) none 10 false)])).isSome
        ∧ ∀ op ∈ [CacheOp.get "b"], CacheOp.touches "a" op = false))
    ∧ allUnused (storePrune (runOps [CacheOp.get "b"]
        [("a", CacheItem.mk (some ["1.1.1.1"]) none 10 false)])).1
    ∧ (storePrune (runOps [CacheOp.get "b"]
        [("a", CacheItem.mk (some ["1.1.1.1"]) none 10 false)])).2
      + (storePrune (runOps [CacheOp.get "b"]
        [("a", CacheItem.mk (some ["1.1.1.1"]) none 10 false)])).1.length
        = (runOps [CacheOp.get "b"]
        [("a", CacheItem.mk (some ["1.1.1.1"]) none 10 false)]).length) :=
  ⟨⟨by decide, by decide, by decide⟩,
    prune_mark_sweep_c5 _ _ "a" (by decide) (by decide) (by decide)⟩

/-! The lookup path (source embedding): the singleflight broadcast is always
a string slice, and the stale-fallback behaviour of the error path. -/

/-- C10: in the lookup path the value broadcast by the singleflight group is
a `[]string` in both the double-check branch and the fetch branch, so the
type assertion on the group result never fails: no input can make `lookup`
return the `unexpected type from singleflight` error. -/
theorem lookup_singleflight_type_c10 (persistOnFailure : Bool)
    (cacheTTL now : Nat) (key : String) (fetchResult : Except GoErr GoStrings)
    (ctxErr : Option GoErr) (s : Store) :
    (lookup persistOnFailure cacheTTL now key fetchResult ctxErr s).1
      ≠ LookupResult.unexpectedType := by
  unfold lookup lookupAndCache
  dsimp only
  generalize storeGet key s = g
  obtain ⟨⟨vals, er, exp⟩, s1⟩ := g
  dsimp only
  by_cases h1 : (vals.isSome && decide (now < exp)) = true
  · simp [h1]
  · rw [if_neg h1]
    generalize storeGet key s1 = g2
    obtain ⟨⟨vals2, er2, exp2⟩, s2⟩ := g2
    dsimp only
    by_cases h2 : (vals2.isSome && decide (now < exp2)) = true
    · simp [h2]
    · rw [if_neg h2]
      cases fetchResult with
      | ok results =>
        cases ctxErr with
        | none => simp
        | some ce =>
          dsimp only
          split <;> first | (split <;> simp) | simp
      | error e =>
        dsimp only
        split <;> first | (split <;> simp) | simp

/-- C4: when the coordinated fetch fails and the cache holds a previous
non-nil values list for the key — even an expired one — a lookup with
stale-fallback (`PersistOnFailure`) enabled returns those stale values as a
success, and the same lookup with it disabled returns the fetch failure. -/
theorem lookup_persist_on_failure_c4 (cacheTTL now : Nat) (key : String)
    (e : GoErr) (ctxErr : Option GoErr) (s : Store) (it : CacheItem)
    (v : List String) (hf : storeFind key s = some it) (hips : it.ips = some v)
    (hexp : it.expireAt ≤ now) :
    (lookup true cacheTTL now key (.error e) ctxErr s).1 = .ok (some v)
    ∧ (lookup false cacheTTL now key (.error e) ctxErr s).1 = .failed e := by
  have hnl : ¬ now < it.expireAt := Nat.not_lt.mpr hexp
  have hf1 : storeFind key (mapVal key (fun q => { q with used := true }) s)
      = some { it with used := true } := by
    rw [storeFind_mapVal_self, hf]; rfl
  have hf2 : storeFind key (mapVal key (fun q => { q with used := true })
      (mapVal key (fun q => { q with used := true }) s))
      = some { it with used := true } := by
    rw [storeFind_mapVal_self, hf1]; rfl
  have h1 := storeGet_of_some key s it hf
  have h2 := storeGet_of_some key _ _ hf1
  have h3 := storeGet_of_some key _ _ hf2
  constructor <;> simp [lookup, lookupAndCache, h1, h2, h3, hips, hnl]

/-- Witness for C4: a concrete expired entry with stale values, a failing
fetch, both policy settings. -/
theorem lookup_persist_on_failure_c4_witness :
    (storeFind "host" [("host", CacheItem.mk (some ["127.0.0.2"]) none 5 true)]
        = some (CacheItem.mk (some ["127.0.0.2"]) none 5 true)
      ∧ (CacheItem.mk (some ["127.0.0.2"]) none 5 true).ips = some ["127.0.0.2"]
      ∧ (CacheItem.mk (some ["127.0.0.2"]) none 5 true).expireAt ≤ 9)
    ∧ ((lookup true 60000 9 "host" (.error (.failure "lookup failed")) none
        [("host", CacheItem.mk (some ["127.0.0.2"]) none 5 true)]).1
          = .ok (some ["127.0.0.2"])
      ∧ (lookup false 60000 9 "host" (.error (.failure "lookup failed")) none
        [("host", CacheItem.mk (some ["127.0.0.2"]) none 5 true)]).1
          = .failed (.failure "lookup failed")) :=
  ⟨⟨by decide, by decide, by decide⟩,
    lookup_persist_on_failure_c4 60000 9 "host" (.failure "lookup failed") none
      [("host", CacheItem.mk (some ["127.0.0.2"]) none 5 true)]
      (CacheItem.mk (some ["127.0.0.2"]) none 5 true) ["127.0.0.2"]
      (by decide) (by decide) (by decide)⟩

/-! Family-filtered lookup. -/

theorem lookup_hit (persistOnFailure : Bool) (cacheTTL now : Nat)
    (key : String) (fr : Except GoErr GoStrings) (ce : Option GoErr)
    (s : Store) (it : CacheItem) (v : List String)
    (hf : storeFind key s = some it) (hips : it.ips = some v)
    (hfresh : now < it.expireAt) :
    lookup persistOnFailure cacheTTL now key fr ce s
      = (.ok (some v), mapVal key (fun q => { q with used := true }) s) := by
  have h1 := storeGet_of_some key s it hf
  simp [lookup, h1, hips, hfresh]

theorem filterMap_guard {α β : Type} (f : α → Option β) (p : β → Bool)
    (l : List α) :
    l.filterMap (fun a => (f a).bind (fun b => if p b then some b else none))
      = (l.filterMap f).filter p := by
  induction l with
  | nil => rfl
  | cons a t ih =>
    cases hfa : f a with
    | none => simp [List.filterMap_cons, hfa, ih]
    | some b =>
      by_cases hp : p b <;>
        simp [List.filterMap_cons, hfa, ih, List.filter_cons, hp]

theorem filterMap_length_of_all {α β : Type} (f : α → Option β) (l : List α)
    (h : ∀ a ∈ l, (f a).isSome) : (l.filterMap f).length = l.length := by
  induction l with
  | nil => rfl
  | cons a t ih =>
    cases hfa : f a with
    | none =>
      have := h a (List.mem_cons_self _ _)
      rw [hfa] at this
      cases this
    | some b =>
      simp [List.filterMap_cons, hfa,
        ih (fun x hx => h x (List.mem_cons_of_mem _ hx))]

theorem filterMap_ext {α β : Type} (f g : α → Option β)
    (h : ∀ a, f a = g a) (l : List α) : l.filterMap f = l.filterMap g := by
  induction l with
  | nil => rfl
  | cons a t ih => rw [List.filterMap_cons, List.filterMap_cons, h a, ih]

theorem lookupIPFilter_ip (parse : String → Option (List Nat)) (V : List String) :
    lookupIPFilter parse "ip" V = V.filterMap parse := by
  unfold lookupIPFilter
  exact filterMap_ext _ _ (fun a => by cases hp : parse a <;> simp [hp]) V

theorem lookupIPFilter_ip4 (parse : String → Option (List Nat)) (V : List String) :
    lookupIPFilter parse "ip4" V
      = (V.filterMap parse).filter (fun ip => (to4 ip).isSome) := by
  rw [← filterMap_guard parse (fun ip => (to4 ip).isSome) V]
  unfold lookupIPFilter
  exact filterMap_ext _ _ (fun a => by cases hp : parse a <;> simp [hp]) V

theorem lookupIPFilter_ip6 (parse : String → Option (List Nat)) (V : List String) :
    lookupIPFilter parse "ip6" V
      = (V.filterMap parse).filter (fun ip => (to4 ip).isNone && (to16 ip).isSome) := by
  rw [← filterMap_guard parse (fun ip => (to4 ip).isNone && (to16 ip).isSome) V]
  unfold lookupIPFilter
  exact filterMap_ext _ _ (fun a => by cases hp : parse a <;> simp [hp]) V

/-- C9: over a cached forward-lookup values list V served fresh from the
cache, `LookupIP` with network "ip" passes every address of V through in
order (all of them, when each parses); with "ip4" it returns exactly the
addresses of V that have a 4-byte form; with "ip6" exactly those without a
4-byte form but with a valid 16-byte form — each preserving V's order. -/
theorem lookup_ip_families_c9 (parse : String → Option (List Nat))
    (persistOnFailure : Bool) (cacheTTL now : Nat) (key : String)
    (fr : Except GoErr GoStrings) (ce : Option GoErr) (s : Store)
    (it : CacheItem) (V : List String)
    (hf : storeFind key s = some it) (hips : it.ips = some V)
    (hfresh : now < it.expireAt) :
    ((lookupIP parse "ip" persistOnFailure cacheTTL now key fr ce s).1
        = .ok (V.filterMap parse)
      ∧ ((∀ a ∈ V, (parse a).isSome) → (V.filterMap parse).length = V.length))
    ∧ (lookupIP parse "ip4" persistOnFailure cacheTTL now key fr ce s).1
        = .ok ((V.filterMap parse).filter (fun ip => (to4 ip).isSome))
    ∧ (lookupIP parse "ip6" persistOnFailure cacheTTL now key fr ce s).1
        = .ok ((V.filterMap parse).filter
            (fun ip => (to4 ip).isNone && (to16 ip).isSome)) := by
  have hl := lookup_hit persistOnFailure cacheTTL now key fr ce s it V hf hips hfresh
  refine ⟨⟨?_, fun h => filterMap_length_of_all parse V h⟩, ?_, ?_⟩ <;>
    simp [lookupIP, hl, lookupIPFilter_ip, lookupIPFilter_ip4, lookupIPFilter_ip6]

/-- Witness for C9: a concrete cached list holding one IPv4 literal, one
IPv4-mapped 16-byte address and one plain IPv6 address, under a concrete
parse function. -/
theorem lookup_ip_families_c9_witness :
    (storeFind "h" [("h", CacheItem.mk (some ["4", "m", "6"]) none 10 true)]
        = some (CacheItem.mk (some ["4", "m", "6"]) none 10 true)
      ∧ (CacheItem.mk (some ["4", "m", "6"]) none 10 true).ips
        = some ["4", "m", "6"]
      ∧ (3 : Nat) < (CacheItem.mk (some ["4", "m", "6"]) none 10 true).expireAt)
    ∧ (((lookupIP (fun a =>
          if a = "4" then some [1, 2, 3, 4]
          else if a = "m" then some [0, 0, 0, 0, 0, 0, 0, 0, 0, 0, 255, 255, 9, 9, 9, 9]
          else if a = "6" then some [32, 1, 13, 184, 0, 0, 0, 0, 0, 0, 0, 0, 0, 0, 0, 1]
          else none) "ip" false 60000 3 "h" (.ok none) none
          [("h", CacheItem.mk (some ["4", "m", "6"]) none 10 true)]).1
        = .ok [[1, 2, 3, 4],
            [0, 0, 0, 0, 0, 0, 0, 0, 0, 0, 255, 255, 9, 9, 9, 9],
            [32, 1, 13, 184, 0, 0, 0, 0, 0, 0, 0, 0, 0, 0, 0, 1]]
      ∧ ((∀ a ∈ ["4", "m", "6"], ((fun a =>
          if a = "4" then some [1, 2, 3, 4]
          else if a = "m" then some [0, 0, 0, 0, 0, 0, 0, 0, 0, 0, 255, 255, 9, 9, 9, 9]
          else if a = "6" then some [32, 1, 13, 184, 0, 0, 0, 0, 0, 0, 0, 0, 0, 0, 0, 1]
          else none) a).isSome) → (3 : Nat) = 3))
      ∧ (lookupIP (fun a =>
          if a = "4" then some [1, 2, 3, 4]
          else if a = "m" then some [0, 0, 0, 0, 0, 0, 0, 0, 0, 0, 255, 255, 9, 9, 9, 9]
          else if a = "6" then some [32, 1, 13, 184, 0, 0, 0, 0, 0, 0, 0, 0, 0, 0, 0, 1]
          else none) "ip4" false 60000 3 "h" (.ok none) none
          [("h", CacheItem.mk (some ["4", "m", "6"]) none 10 true)]).1
        = .ok [[1, 2, 3, 4],
            [0, 0, 0, 0, 0, 0, 0, 0, 0, 0, 255, 255, 9, 9, 9, 9]]
      ∧ (lookupIP (fun a =>
          if a = "4" then some [1, 2, 3, 4]
          else if a = "m" then some [0, 0, 0, 0, 0, 0, 0, 0, 0, 0, 255, 255, 9, 9, 9, 9]
          else if a = "6" then some [32, 1, 13, 184, 0, 0, 0, 0, 0, 0, 0, 0, 0, 0, 0, 1]
          else none) "ip6" false 60000 3 "h" (.ok none) none
          [("h", CacheItem.mk (some ["4", "m", "6"]) none 10 true)]).1
        = .ok [[32, 1, 13, 184, 0, 0, 0, 0, 0, 0, 0, 0, 0, 0, 0, 1]]) := by
  refine ⟨⟨by decide, by decide, by decide⟩, ?_⟩
  have h := lookup_ip_families_c9 (fun a =>
          if a = "4" then some [1, 2, 3, 4]
          else if a = "m" then some [0, 0, 0, 0, 0, 0, 0, 0, 0, 0, 255, 255, 9, 9, 9, 9]
          else if a = "6" then some [32, 1, 13, 184, 0, 0, 0, 0, 0, 0, 0, 0, 0, 0, 0, 1]
          else none) false 60000 3 "h" (.ok none) none
          [("h", CacheItem.mk (some ["4", "m", "6"]) none 10 true)]
          (CacheItem.mk (some ["4", "m", "6"]) none 10 true) ["4", "m", "6"]
          (by decide) (by decide) (by decide)
  refine ⟨⟨?_, fun _ => rfl⟩, ?_, ?_⟩
  · rw [h.1.1]; decide
  · rw [h.2.1]; decide
  · rw [h.2.2]; decide

/-! Dialer: the failover loop. -/

theorem dialLoop_first_success (dial : String → Except GoErr Nat)
    (network : String) (pre : List String) (a : String)
    (post : List String) (c : Nat) (le : Option GoErr)
    (hpre : ∀ b ∈ pre, ∃ eb, dial b = .error eb) (hsucc : dial a = .ok c) :
    dialLoop dial network (pre ++ a :: post) le = (.ok c, pre ++ [a]) := by
  induction pre generalizing le with
  | nil =>
    simp only [List.nil_append]
    unfold dialLoop
    rw [hsucc]
  | cons b pre' ih =>
    obtain ⟨eb, heb⟩ := hpre b (List.mem_cons_self _ _)
    have ih' := ih (some eb) (fun x hx => hpre x (List.mem_cons_of_mem _ hx))
    simp only [List.cons_append]
    unfold dialLoop
    rw [heb]
    simp [ih']

theorem dialLoop_all_fail (dial : String → Except GoErr Nat)
    (network : String) (pre : List String) (alast : String) (elast : GoErr)
    (le : Option GoErr)
    (hpre : ∀ b ∈ pre, ∃ eb, dial b = .error eb)
    (hlast : dial alast = .error elast) :
    dialLoop dial network (pre ++ [alast]) le = (.error elast, pre ++ [alast]) := by
  induction pre generalizing le with
  | nil =>
    simp only [List.nil_append]
    unfold dialLoop
    rw [hlast]
    rfl
  | cons b pre' ih =>
    obtain ⟨eb, heb⟩ := hpre b (List.mem_cons_self _ _)
    have ih' := ih (some eb) (fun x hx => hpre x (List.mem_cons_of_mem _ hx))
    simp only [List.cons_append]
    unfold dialLoop
    rw [heb]
    simp [ih']

/-- C7: `DialContext` splits the target into host and port and returns a
parse failure immediately, with no lookup and no dial attempt; a resolution
failure is returned after exactly one lookup; an empty resolved list yields
the dial-shaped "no addresses found" error; otherwise the candidates are
attempted strictly in order — the first established connection is returned,
and if every attempt fails the error of the last attempt is returned. -/
theorem dial_context_c7 (join : String → String → String)
    (dial : String → Except GoErr Nat) (network address : String) :
    (∀ e lk, dialContext false join dial network address (.error e) lk
        = ⟨.error e, 0, []⟩)
    ∧ (∀ hp e, dialContext false join dial network address (.ok hp) (.error e)
        = ⟨.error e, 1, []⟩)
    ∧ (∀ hp ips, ips.getD [] = [] →
        dialContext false join dial network address (.ok hp) (.ok ips)
          = ⟨.error (.opErr "dial" network "no addresses found"), 1, []⟩)
    ∧ (∀ hp ips pre a post c,
        (ips.getD []).map (fun ip => join ip hp.2) = pre ++ a :: post →
        (∀ b ∈ pre, ∃ eb, dial b = .error eb) → dial a = .ok c →
        dialContext false join dial network address (.ok hp) (.ok ips)
          = ⟨.ok c, 1, pre ++ [a]⟩)
    ∧ (∀ hp ips pre alast elast,
        (ips.getD []).map (fun ip => join ip hp.2) = pre ++ [alast] →
        (∀ b ∈ pre, ∃ eb, dial b = .error eb) → dial alast = .error elast →
        dialContext false join dial network address (.ok hp) (.ok ips)
          = ⟨.error elast, 1, pre ++ [alast]⟩) := by
  refine ⟨fun e lk => rfl, fun hp e => rfl, ?_, ?_, ?_⟩
  · intro hp ips hnil
    unfold dialContext
    dsimp only
    rw [hnil]
    rfl
  · intro hp ips pre a post c hmap hpre hsucc
    unfold dialContext
    dsimp only
    rw [hmap, dialLoop_first_success dial network pre a post c none hpre hsucc]
    rfl
  · intro hp ips pre alast elast hmap hpre hlast
    unfold dialContext
    dsimp only
    rw [hmap, dialLoop_all_fail dial network pre alast elast none hpre hlast]
    rfl

/-- Witness for C7 at a concrete dialer: the first candidate is unreachable,
the second accepts; also the empty-resolution and all-fail cases. -/
theorem dial_context_c7_witness :
    (((some ["10.255.255.1", "127.0.0.1"] : GoStrings).getD []).map
        (fun ip => ip ++ ":" ++ ("h", "80").2)
        = ["10.255.255.1:80"] ++ "127.0.0.1:80" :: []
      ∧ (∀ b ∈ ["10.255.255.1:80"], ∃ eb,
          (fun a => if a = "127.0.0.1:80" then (.ok 7 : Except GoErr Nat)
            else .error (.failure "unreachable")) b = .error eb)
      ∧ (fun a => if a = "127.0.0.1:80" then (.ok 7 : Except GoErr Nat)
            else .error (.failure "unreachable")) "127.0.0.1:80" = .ok 7)
    ∧ dialContext false (fun ip port => ip ++ ":" ++ port)
        (fun a => if a = "127.0.0.1:80" then (.ok 7 : Except GoErr Nat)
          else .error (.failure "unreachable"))
        "tcp" "h:80" (.ok ("h", "80")) (.ok (some ["10.255.255.1", "127.0.0.1"]))
        = ⟨.ok 7, 1, ["10.255.255.1:80", "127.0.0.1:80"]⟩
    ∧ dialContext false (fun ip port => ip ++ ":" ++ port)
        (fun a => if a = "127.0.0.1:80" then (.ok 7 : Except GoErr Nat)
          else .error (.failure "unreachable"))
        "tcp" "h:80" (.ok ("h", "80")) (.ok none)
        = ⟨.error (.opErr "dial" "tcp" "no addresses found"), 1, []⟩ := by
  refine ⟨⟨by decide, ?_, by decide⟩, ?_, ?_⟩
  · intro b hb
    rcases List.mem_singleton.mp hb with rfl
    exact ⟨.failure "unreachable", by decide⟩
  · exact (dial_context_c7 (fun ip port => ip ++ ":" ++ port) _ "tcp" "h:80").2.2.2.1
      ("h", "80") (some ["10.255.255.1", "127.0.0.1"])
      ["10.255.255.1:80"] "127.0.0.1:80" [] 7 (by decide)
      (fun b hb => by
        rcases List.mem_singleton.mp hb with rfl
        exact ⟨.failure "unreachable", by decide⟩)
      (by decide)
  · exact (dial_context_c7 (fun ip port => ip ++ ":" ++ port) _ "tcp" "h:80").2.2.1
      ("h", "80") none rfl

/-! Dial strategies. -/

theorem cons_eraseIdx_perm (l : List String) (j : Nat) (h : j < l.length) :
    (l.get ⟨j, h⟩ :: l.eraseIdx j).Perm l := by
  have h1 : l.Perm (l.get ⟨j, h⟩ :: l.erase (l.get ⟨j, h⟩)) :=
    List.perm_cons_erase (List.get_mem l j h)
  have h2 : (l.erase (l.get ⟨j, h⟩)).Perm (l.eraseIdx j) := by
    rw [List.get_eq_getElem]
    exact List.erase_getElem h
  exact (h2.symm.cons _).trans h1.symm

theorem fyShuffle_perm (draws : List Nat) (l : List String) :
    (fyShuffle draws l).Perm l := by
  induction draws generalizing l with
  | nil => cases l <;> exact List.Perm.refl _
  | cons d ds ih =>
    cases l with
    | nil => exact List.Perm.refl _
    | cons a t =>
      have hlt : d % (a :: t).length < (a :: t).length :=
        Nat.mod_lt _ (Nat.succ_pos _)
      exact ((ih ((a :: t).eraseIdx (d % (a :: t).length))).cons
          ((a :: t).get ⟨d % (a :: t).length, hlt⟩)).trans
        (cons_eraseIdx_perm (a :: t) (d % (a :: t).length) hlt)

theorem dialLoop_attempts_prefix (dial : String → Except GoErr Nat)
    (network : String) (l : List String) (le : Option GoErr) :
    ∃ t, l = (dialLoop dial network l le).2 ++ t := by
  induction l generalizing le with
  | nil => exact ⟨[], rfl⟩
  | cons a rest ih =>
    cases hd : dial a with
    | ok c =>
      refine ⟨rest, ?_⟩
      unfold dialLoop
      rw [hd]
      rfl
    | error e =>
      obtain ⟨t, ht⟩ := ih (some e)
      refine ⟨t, ?_⟩
      unfold dialLoop
      rw [hd]
      dsimp only
      rw [List.cons_append, ← ht]

/-- C8: the dial path reorders the resolved candidates with the configured
strategy before the sequential failover loop.  An unset configuration means
Random; Random reorders with this call's fresh draws into a permutation of
the candidates, and over the three-candidate list the six canonical draw
pairs produce all six orders, each exactly once; round-robin advances the
per-resolver counter by one per call modulo the candidate count, so four
consecutive calls over three candidates start at the first, second, third
and first candidate again; and the addresses a strategy dial attempts are
an initial segment of the strategy-reordered list. -/
theorem dial_strategy_c8 :
    defaultDialStrategy = DialStrategy.random
    ∧ (∀ (draws : List Nat) (counter : Nat) (ips : List String),
        (applyDialStrategy .random draws counter ips).1.Perm ips)
    ∧ (let c := ["1.1.1.1", "2.2.2.2", "3.3.3.3"]
       let r1 := applyDialStrategy .roundRobin [] 0 c
       let r2 := applyDialStrategy .roundRobin [] r1.2 c
       let r3 := applyDialStrategy .roundRobin [] r2.2 c
       let r4 := applyDialStrategy .roundRobin [] r3.2 c
       r1.1.head? = some "1.1.1.1" ∧ r2.1.head? = some "2.2.2.2"
         ∧ r3.1.head? = some "3.3.3.3" ∧ r4.1.head? = some "1.1.1.1")
    ∧ (∀ (draws : List Nat) (k : Nat) (ips : List String), 1 < ips.length →
        (applyDialStrategy .roundRobin draws k ips).2 = k + 1
          ∧ (applyDialStrategy .roundRobin draws k ips).1
              = ips.rotate (k % ips.length))
    ∧ ([[0, 0], [0, 1], [1, 0], [1, 1], [2, 0], [2, 1]].map
        (fun ds => (applyDialStrategy .random ds 0
          ["1.1.1.1", "2.2.2.2", "3.3.3.3"]).1)).Nodup
    ∧ (∀ (strat : DialStrategy) (draws : List Nat) (counter : Nat)
        (join : String → String → String) (dial : String → Except GoErr Nat)
        (network : String) (hp : String × String) (ips : GoStrings),
        ∃ rest,
          ((applyDialStrategy strat draws counter (ips.getD [])).1.map
              (fun ip => join ip hp.2))
            = (dialContextStrategy strat draws counter join dial network
                (.ok hp) (.ok ips)).1.attempts ++ rest) := by
  refine ⟨rfl, ?_, by decide, ?_, by decide, ?_⟩
  · intro draws counter ips
    unfold applyDialStrategy
    by_cases h : ips.length ≤ 1
    · rw [if_pos h]
    · rw [if_neg h]
      exact fyShuffle_perm draws ips
  · intro draws k ips h
    unfold applyDialStrategy
    rw [if_neg (by omega)]
    exact ⟨rfl, rfl⟩
  · intro strat draws counter join dial network hp ips
    unfold dialContextStrategy
    dsimp only
    exact dialLoop_attempts_prefix dial network _ none

/-- Witness for C8's round-robin conjunct at a concrete candidate list and
counter. -/
theorem dial_strategy_c8_witness :
    (1 < (["1.1.1.1", "2.2.2.2", "3.3.3.3"] : List String).length)
    ∧ (applyDialStrategy .roundRobin [] 1 ["1.1.1.1", "2.2.2.2", "3.3.3.3"]).2 = 2
    ∧ (applyDialStrategy .roundRobin [] 1 ["1.1.1.1", "2.2.2.2", "3.3.3.3"]).1
        = (["1.1.1.1", "2.2.2.2", "3.3.3.3"] : List String).rotate (1 % 3) :=
  ⟨by decide,
    (dial_strategy_c8.2.2.2.1 [] 1 ["1.1.1.1", "2.2.2.2", "3.3.3.3"] (by decide)).1,
    (dial_strategy_c8.2.2.2.1 [] 1 ["1.1.1.1", "2.2.2.2", "3.3.3.3"] (by decide)).2⟩

/-! The spec-modelled lookup pipeline: helper lemmas. -/

theorem storeView_mapVal_mark (key k : String) (s : Store) :
    storeView k (mapVal key (fun q => { q with used := true }) s)
      = storeView k s := by
  by_cases hk : k = key
  · subst k
    unfold storeView
    rw [storeFind_mapVal_self]
    cases storeFind key s <;> rfl
  · unfold storeView
    rw [storeFind_mapVal_ne k key (fun hh => hk hh.symm)]

theorem ipListChanged_iff (a b : List String) :
    ipListChanged a b = true
      ↔ List.insertionSort (· ≤ ·) a ≠ List.insertionSort (· ≤ ·) b := by
  unfold ipListChanged
  by_cases hl : a.length = b.length
  · have hb : (a.length != b.length) = false := by simp [hl]
    rw [hb, if_neg Bool.false_ne_true]
    exact decide_eq_true_iff
  · have hs : List.insertionSort (· ≤ ·) a ≠ List.insertionSort (· ≤ ·) b := by
      intro heq
      apply hl
      rw [← List.length_insertionSort (· ≤ ·) a, ← List.length_insertionSort (· ≤ ·) b,
        heq]
    have hb : (a.length != b.length) = true := by simp [hl]
    rw [hb, if_pos rfl]
    exact iff_of_true rfl hs

theorem ipListChanged_perm (a b : List String) (h : a.Perm b) :
    ipListChanged a b = false := by
  have hsort : List.insertionSort (· ≤ ·) a = List.insertionSort (· ≤ ·) b :=
    List.eq_of_perm_of_sorted
      ((List.perm_insertionSort _ a).trans (h.trans (List.perm_insertionSort _ b).symm))
      (List.sorted_insertionSort _ a) (List.sorted_insertionSort _ b)
  unfold ipListChanged
  have hb : (a.length != b.length) = false := by simp [h.length_eq]
  rw [hb, if_neg Bool.false_ne_true, hsort]
  exact decide_eq_false (not_not_intro rfl)

theorem changeHook_cases (old new : List String) (key : String) (vals : GoStrings) :
    ((if ipListChanged old new then some (key, vals) else none)
        ≠ (none : Option (String × GoStrings))
      ↔ List.insertionSort (· ≤ ·) old ≠ List.insertionSort (· ≤ ·) new)
    ∧ ((if ipListChanged old new then some (key, vals) else none)
        ≠ (none : Option (String × GoStrings))
      → (if ipListChanged old new then some (key, vals) else none)
        = some (key, vals)) := by
  cases hch : ipListChanged old new
  · rw [if_neg Bool.false_ne_true]
    refine ⟨iff_of_false (not_not_intro rfl) ?_, fun h => absurd rfl h⟩
    intro hdiff
    have := (ipListChanged_iff old new).mpr hdiff
    rw [hch] at this
    cases this
  · rw [if_pos rfl]
    exact ⟨iff_of_true (by simp) ((ipListChanged_iff old new).mp hch), fun _ => rfl⟩

/-- C6: a failure that propagates the caller's own cancellation or deadline
is never written to the cache — after such a failed lookup the stored data
(values, failure, expiry) of every key is unchanged — and the cancellation
error itself is returned to the caller. -/
theorem no_cache_on_cancellation_c6 (cfg : SpecConfig) (now : Nat)
    (key : String) (e : GoErr) (s : Store)
    (hctx : e.isCtxErr = true) (hmiss : freshAt key now s = false) :
    (lookupSpec cfg (.error e) now key s).result = .error e
    ∧ ∀ k, storeView k (lookupSpec cfg (.error e) now key s).store
        = storeView k s := by
  unfold lookupSpec
  cases hf : storeFind key s with
  | none =>
    rw [storeGet_of_none key s hf]
    dsimp only
    have hcond : (((none : GoStrings).isSome || (none : Option GoErr).isSome)
        && decide (now < 0)) = false := by simp
    rw [hcond, if_neg Bool.false_ne_true]
    rw [hctx, if_pos rfl]
    exact ⟨rfl, fun k => rfl⟩
  | some it =>
    rw [storeGet_of_some key s it hf]
    dsimp only
    have hcond : ((it.ips.isSome || it.err.isSome)
        && decide (now < it.expireAt)) = false := by
      unfold freshAt at hmiss
      rw [hf] at hmiss
      exact hmiss
    rw [hcond, if_neg Bool.false_ne_true]
    rw [hctx, if_pos rfl]
    exact ⟨rfl, fun k => storeView_mapVal_mark key k s⟩

/-- Witness for C6: a cancelled fetch against an empty cache. -/
theorem no_cache_on_cancellation_c6_witness :
    (GoErr.canceled.isCtxErr = true ∧ freshAt "h" 0 [] = false)
    ∧ ((lookupSpec ⟨60000, 1000, false⟩ (.error .canceled) 0 "h" []).result
        = .error .canceled
      ∧ ∀ k, storeView k
          (lookupSpec ⟨60000, 1000, false⟩ (.error .canceled) 0 "h" []).store
        = storeView k []) :=
  ⟨⟨by decide, by decide⟩,
    no_cache_on_cancellation_c6 ⟨60000, 1000, false⟩ 0 "h" .canceled []
      (by decide) (by decide)⟩

/-- C1: a lookup whose fetch fails for a reason other than the caller's own
cancellation or deadline stores a negative entry — the failure, over the
previously held values — expiring at now plus the configured negative TTL;
the construction defaults that TTL to one second; and in the
always-failing scenario the first lookup fetches and returns the failure,
an immediate second lookup within the negative TTL returns the failure
without fetching, and a third lookup after the TTL elapses fetches exactly
once more. -/
theorem negative_caching_c1 (cfg : SpecConfig) (now : Nat) (key : String)
    (e : GoErr) (s : Store) (hctx : e.isCtxErr = false)
    (hmiss : freshAt key now s = false) :
    (storeView key (lookupSpec cfg (.error e) now key s).store
        = some (prevValues key s, some e, now + cfg.cacheFailTTL)
      ∧ (lookupSpec cfg (.error e) now key s).fetched = true
      ∧ (lookupSpec cfg (.error e) now key s).result
          = (if cfg.persistOnFailure && (prevValues key s).isSome
             then .ok (prevValues key s) else .error e))
    ∧ (newConfig ⟨0, 0, false⟩).cacheFailTTL = 1000
    ∧ (let cfg0 := newConfig ⟨0, 0, false⟩
       let err := GoErr.failure "upstream failure"
       let o1 := lookupSpec cfg0 (.error err) 0 "fail.com" []
       let o2 := lookupSpec cfg0 (.error err) 999 "fail.com" o1.store
       let o3 := lookupSpec cfg0 (.error err) 1000 "fail.com" o2.store
       (o1.fetched = true ∧ o1.result = .error err)
         ∧ (o2.fetched = false ∧ o2.result = .error err)
         ∧ o3.fetched = true) := by
  refine ⟨?_, by decide, by decide⟩
  unfold lookupSpec prevValues
  cases hf : storeFind key s with
  | none =>
    rw [storeGet_of_none key s hf]
    dsimp only
    have hcond : (((none : GoStrings).isSome || (none : Option GoErr).isSome)
        && decide (now < 0)) = false := by simp
    rw [hcond, if_neg Bool.false_ne_true]
    rw [hctx, if_neg Bool.false_ne_true]
    have habs : ¬(storeFind key s).isSome := by rw [hf]; exact fun h => by cases h
    rw [storeSet_of_absent key none (some e) cfg.cacheFailTTL now s habs]
    have hpf : (cfg.persistOnFailure && (none : GoStrings).isSome) = false := by simp
    rw [hpf, if_neg Bool.false_ne_true]
    refine ⟨?_, rfl, ?_⟩
    · unfold storeView storeFind
      simp
    · rw [if_neg Bool.false_ne_true]
  | some it =>
    rw [storeGet_of_some key s it hf]
    dsimp only
    have hcond : ((it.ips.isSome || it.err.isSome)
        && decide (now < it.expireAt)) = false := by
      unfold freshAt at hmiss
      rw [hf] at hmiss
      exact hmiss
    rw [hcond, if_neg Bool.false_ne_true]
    rw [hctx, if_neg Bool.false_ne_true]
    have hf1 : storeFind key (mapVal key (fun q => { q with used := true }) s)
        = some { it with used := true } := by
      rw [storeFind_mapVal_self, hf]; rfl
    have hpres : (storeFind key
        (mapVal key (fun q => { q with used := true }) s)).isSome := by
      rw [hf1]; rfl
    rw [storeSet_of_present key it.ips (some e) cfg.cacheFailTTL now _ hpres]
    have hview : storeView key (mapVal key
        (fun _ => (⟨it.ips, some e, now + cfg.cacheFailTTL, true⟩ : CacheItem))
        (mapVal key (fun q => { q with used := true }) s))
        = some (it.ips, some e, now + cfg.cacheFailTTL) := by
      unfold storeView
      rw [storeFind_mapVal_self, hf1]
      rfl
    cases hpf : (cfg.persistOnFailure && it.ips.isSome) with
    | false =>
      rw [if_neg Bool.false_ne_true]
      exact ⟨hview, rfl, by rw [if_neg Bool.false_ne_true]⟩
    | true =>
      rw [if_pos rfl]
      exact ⟨hview, rfl, by rw [if_pos rfl]⟩

/-- Witness for C1: a non-cancellation failure against an empty cache. -/
theorem negative_caching_c1_witness :
    ((GoErr.failure "x").isCtxErr = false ∧ freshAt "h" 7 [] = false)
    ∧ (storeView "h"
        (lookupSpec ⟨60000, 1000, false⟩ (.error (.failure "x")) 7 "h" []).store
        = some (prevValues "h" [], some (.failure "x"), 7 + 1000)
      ∧ (lookupSpec ⟨60000, 1000, false⟩ (.error (.failure "x")) 7 "h" []).fetched
          = true
      ∧ (lookupSpec ⟨60000, 1000, false⟩ (.error (.failure "x")) 7 "h" []).result
          = (if (⟨60000, 1000, false⟩ : SpecConfig).persistOnFailure
                && (prevValues "h" []).isSome
             then .ok (prevValues "h" []) else .error (.failure "x"))) :=
  ⟨⟨by decide, by decide⟩,
    ((negative_caching_c1 ⟨60000, 1000, false⟩ 7 "h" (.failure "x") []
      (by decide) (by decide)).1)⟩

/-- C3: a successful fetch persists the new values with the configured
positive TTL, and the change hook fires — with the key and the new values —
exactly when the previously cached list and the new list still differ after
independently sorting both; reordering the same multiset of addresses never
fires the hook. -/
theorem change_detection_c3 (cfg : SpecConfig) (now : Nat) (key : String)
    (vals : GoStrings) (s : Store) (hmiss : freshAt key now s = false) :
    (storeView key (lookupSpec cfg (.ok vals) now key s).store
        = some (vals, none, now + cfg.cacheTTL))
    ∧ ((lookupSpec cfg (.ok vals) now key s).changeHook ≠ none
        ↔ List.insertionSort (· ≤ ·) ((prevValues key s).getD [])
            ≠ List.insertionSort (· ≤ ·) (vals.getD []))
    ∧ ((lookupSpec cfg (.ok vals) now key s).changeHook ≠ none
        → (lookupSpec cfg (.ok vals) now key s).changeHook = some (key, vals))
    ∧ (∀ a b : List String, a.Perm b → ipListChanged a b = false) := by
  refine ?_
  unfold lookupSpec prevValues
  cases hf : storeFind key s with
  | none =>
    rw [storeGet_of_none key s hf]
    dsimp only
    have hcond : (((none : GoStrings).isSome || (none : Option GoErr).isSome)
        && decide (now < 0)) = false := by simp
    rw [hcond, if_neg Bool.false_ne_true]
    have habs : ¬(storeFind key s).isSome := by rw [hf]; exact fun h => by cases h
    rw [storeSet_of_absent key vals none cfg.cacheTTL now s habs]
    refine ⟨?_, (changeHook_cases _ _ key vals).1,
      (changeHook_cases _ _ key vals).2, fun a b h => ipListChanged_perm a b h⟩
    unfold storeView storeFind
    simp
  | some it =>
    rw [storeGet_of_some key s it hf]
    dsimp only
    have hcond : ((it.ips.isSome || it.err.isSome)
        && decide (now < it.expireAt)) = false := by
      unfold freshAt at hmiss
      rw [hf] at hmiss
      exact hmiss
    rw [hcond, if_neg Bool.false_ne_true]
    have hf1 : storeFind key (mapVal key (fun q => { q with used := true }) s)
        = some { it with used := true } := by
      rw [storeFind_mapVal_self, hf]; rfl
    have hpres : (storeFind key
        (mapVal key (fun q => { q with used := true }) s)).isSome := by
      rw [hf1]; rfl
    rw [storeSet_of_present key vals none cfg.cacheTTL now _ hpres]
    refine ⟨?_, (changeHook_cases _ _ key vals).1,
      (changeHook_cases _ _ key vals).2, fun a b h => ipListChanged_perm a b h⟩
    unfold storeView
    rw [storeFind_mapVal_self, hf1]
    rfl

/-- Witness for C3: an expired entry whose values are re-fetched in a
different order — the hook stays silent — applied at concrete inputs. -/
theorem change_detection_c3_witness :
    freshAt "h" 9 [("h", CacheItem.mk (some ["1.1.1.1", "2.2.2.2"]) none 5 true)]
        = false
    ∧ ((storeView "h" (lookupSpec ⟨60000, 1000, false⟩
          (.ok (some ["2.2.2.2", "1.1.1.1"])) 9 "h"
          [("h", CacheItem.mk (some ["1.1.1.1", "2.2.2.2"]) none 5 true)]).store
        = some (some ["2.2.2.2", "1.1.1.1"], none, 9 + 60000))
      ∧ ((lookupSpec ⟨60000, 1000, false⟩ (.ok (some ["2.2.2.2", "1.1.1.1"])) 9 "h"
          [("h", CacheItem.mk (some ["1.1.1.1", "2.2.2.2"]) none 5 true)]).changeHook
            ≠ none
        ↔ List.insertionSort (· ≤ ·)
            ((prevValues "h"
              [("h", CacheItem.mk (some ["1.1.1.1", "2.2.2.2"]) none 5 true)]).getD [])
          ≠ List.insertionSort (· ≤ ·)
            ((some ["2.2.2.2", "1.1.1.1"] : GoStrings).getD []))
      ∧ ((lookupSpec ⟨60000, 1000, false⟩ (.ok (some ["2.2.2.2", "1.1.1.1"])) 9 "h"
          [("h", CacheItem.mk (some ["1.1.1.1", "2.2.2.2"]) none 5 true)]).changeHook
            ≠ none
        → (lookupSpec ⟨60000, 1000, false⟩ (.ok (some ["2.2.2.2", "1.1.1.1"])) 9 "h"
          [("h", CacheItem.mk (some ["1.1.1.1", "2.2.2.2"]) none 5 true)]).changeHook
            = some ("h", some ["2.2.2.2", "1.1.1.1"]))
      ∧ (∀ a b : List String, a.Perm b → ipListChanged a b = false)) :=
  ⟨by decide,
    change_detection_c3 ⟨60000, 1000, false⟩ 9 "h" (some ["2.2.2.2", "1.1.1.1"])
      [("h", CacheItem.mk (some ["1.1.1.1", "2.2.2.2"]) none 5 true)] (by decide)⟩

end DnsCacheGo
